import Mathlib

/-!
Verification of the LYDIAN control-plane (`lydian/apps/podium.py`,
`lydian/apps/mocktraffic.py`, `lydian/apps/results.py`) against its
natural-language specification.  The Python source is shallowly embedded:
pure computations become Lean functions, the thread-based sampler becomes an
explicit state machine, remote RPC surfaces that live outside the embedded
files are taken as parameters or modelled from the specification (each such
definition says so in its doc comment).
-/

namespace Lydian

/-! ## Python-style rounding on rationals -/

/-- Python `round(x)` to the nearest integer, ties to even
(banker's rounding, the semantics of Python 3 `round`). -/
def pyRoundInt (q : ℚ) : ℤ :=
  if q - ⌊q⌋ < 1/2 then ⌊q⌋
  else if 1/2 < q - ⌊q⌋ then ⌊q⌋ + 1
  else if ⌊q⌋ % 2 = 0 then ⌊q⌋ else ⌊q⌋ + 1

/-- Python `round(x, 2)`: round to two decimal places. -/
def pyRound2 (q : ℚ) : ℚ := (pyRoundInt (q * 100) : ℚ) / 100

/-- Python `min` over a list (the source only applies it to non-empty
lists; the `[]` case is arbitrary). -/
def pyMin (l : List ℚ) : ℚ :=
  match l with
  | [] => 0
  | h :: t => t.foldl min h

/-- Python `max` over a list (the source only applies it to non-empty
lists; the `[]` case is arbitrary). -/
def pyMax (l : List ℚ) : ℚ :=
  match l with
  | [] => 0
  | h :: t => t.foldl max h

/-! ## Latency reduction (`Podium.get_latency`, podium.py lines 389-406)

The per-host fetch (`_get_latencies` / remote `results.get_latency_stat`)
returns, for each involved host, either a numeric aggregate or `None`; the
embedding takes that list of per-host values as input.  The result records
the returned value together with whether the `log.error('Invalid method...')`
branch was taken. -/

structure LatencyResult where
  value : ℚ
  invalid_logged : Bool
deriving DecidableEq, Repr

/-- `Podium.get_latency`: drop `None` per-host values, return `0` on an
empty remainder (before any method check), else reduce with the same
method; an unrecognized method leaves the initial `0` and logs an error. -/
def get_latency (latencies0 : List (Option ℚ)) (method : String) : LatencyResult :=
  let latencies := latencies0.filterMap id
  if latencies.length = 0 then ⟨0, false⟩
  else if method = "avg" then ⟨pyRound2 (latencies.sum / (latencies.length : ℚ)), false⟩
  else if method = "min" then ⟨pyRound2 (pyMin latencies), false⟩
  else if method = "max" then ⟨pyRound2 (pyMax latencies), false⟩
  else ⟨0, true⟩

/-! ## Traffic records and aggregated statistics
(`Results.traffic`, results.py; `Podium.get_host_result`, `_get_results`,
`get_results`, `get_traffic_stats`, pass/fail percent, podium.py 300-354) -/

/-- One probe outcome, with the nine documented fields. -/
structure TrafficRecord where
  source : String
  destination : String
  protocol : String
  port : String
  result : Bool
  reqid : String
  ruleid : String
  latency : String
  timestamp : String
deriving DecidableEq, Repr

/-- Modelled from the spec: `TrafficRecordDB.read` (module
`lydian/apps/recorder.py`, not part of the embedded sources) returns the
matching rows of the local store, each row being the tuple of the
documented TrafficRecord fields; the `reqid` and `result` filters are
applied remotely (`result` is transmitted as the string `'1'` / `'0'`). -/
def dbReadTraffic (store : List TrafficRecord) (reqid : String)
    (resultFilter : Option Bool) : List (List String) :=
  (store.filter fun r =>
    r.reqid == reqid &&
      (match resultFilter with
       | none => true
       | some b => r.result == b)).map fun r =>
    [r.source, r.destination, r.protocol, r.port,
     if r.result then "1" else "0", r.reqid, r.ruleid, r.latency, r.timestamp]

/-- `Podium.get_host_result` without a duration: the deserialized
(`pickle.loads`) row list returned by one agent. -/
def get_host_result (store : List TrafficRecord) (reqid : String)
    (resultFilter : Option Bool) : List (List String) :=
  dbReadTraffic store reqid resultFilter

/-- `Podium._get_results` / `Podium.get_results`: per-host fetches are
concatenated (`results.extend(val)`) into one flat list of rows. -/
def get_results (stores : List (List TrafficRecord)) (reqid : String)
    (resultFilter : Option Bool) : List (List String) :=
  (stores.map fun s => get_host_result s reqid resultFilter).flatten

structure TrafficStats where
  success : ℕ
  failure : ℕ
deriving DecidableEq, Repr

/-- `Podium.get_traffic_stats`: two remotely-filtered queries
(`result='1'`, `result='0'`), then `stats['success'] += len(host_pass_record)`
for each element of the flattened row list (and likewise for failures). -/
def get_traffic_stats (stores : List (List TrafficRecord)) (reqid : String) :
    TrafficStats :=
  let pass_records := get_results stores reqid (some true)
  let fail_records := get_results stores reqid (some false)
  { success := (pass_records.map List.length).sum
    failure := (fail_records.map List.length).sum }

/-- `Podium.get_traffic_pass_percent`:
`round(success * 100 / total, 2) if total else 0`. -/
def get_traffic_pass_percent (stores : List (List TrafficRecord))
    (reqid : String) : ℚ :=
  let stats := get_traffic_stats stores reqid
  let total := stats.success + stats.failure
  if total ≠ 0 then pyRound2 ((stats.success : ℚ) * 100 / (total : ℚ)) else 0

/-- `Podium.get_traffic_fail_percent`:
`round(failure * 100 / total, 2) if total else 100`. -/
def get_traffic_fail_percent (stores : List (List TrafficRecord))
    (reqid : String) : ℚ :=
  let stats := get_traffic_stats stores reqid
  let total := stats.success + stats.failure
  if total ≠ 0 then pyRound2 ((stats.failure : ℚ) * 100 / (total : ℚ)) else 100

/-! ## Traffic rules and registration
(`Podium.create_traffic_intent`, `create_traffic_rule`, `register_traffic`,
`run_mesh_ping`, podium.py lines 158-263) -/

/-- A traffic intent / rule: the fields `create_traffic_intent` always sets
(extra schema fields are irrelevant to the embedded claims). -/
structure Intent where
  reqid : String
  ruleid : String
  src : String
  dst : String
  port : Nat
  protocol : String
  connected : Bool
deriving DecidableEq, Repr

/-- Modelled from the spec: `create_traffic_rule` copies every intent field
onto a fresh `TrafficRule` (`lydian/traffic/core.py` is not among the
embedded sources) and `fill()` only computes derived defaults, so the
durable rule is represented by its intent. -/
structure TRule where
  rule : Intent
deriving DecidableEq, Repr

def create_traffic_rule (i : Intent) : TRule := ⟨i⟩

/-- The endpoint registry lookup `Podium.get_ep_host`:
`self._ep_hosts.get(epip, None)`. -/
abbrev Resolver := String → Option String

/-- A `collections.defaultdict(list)` keyed by host, in Python dict
insertion order. -/
abbrev HostRules := List (String × List Intent)

/-- Dict lookup, `[]` for a missing key (defaultdict read). -/
def lookupRules (m : HostRules) (k : String) : List Intent :=
  match m with
  | [] => []
  | (k', v) :: rest => if k' = k then v else lookupRules rest k

/-- `m[k].append(v)` on a `defaultdict(list)`: appends to the existing
entry, or appends a new singleton entry at the end (insertion order). -/
def dAppend (m : HostRules) (k : String) (v : Intent) : HostRules :=
  match m with
  | [] => [(k, [v])]
  | (k', vs) :: rest =>
      if k' = k then (k', vs ++ [v]) :: rest else (k', vs) :: dAppend rest k v

/-- `m[k].extend(vs)` on a `defaultdict(list)`. -/
def dExtend (m : HostRules) (k : String) (vs : List Intent) : HostRules :=
  match m with
  | [] => [(k, vs)]
  | (k', vs') :: rest =>
      if k' = k then (k', vs' ++ vs) :: rest else (k', vs') :: dExtend rest k vs

/-- Accumulator of the `for rule in intent` loop of `register_traffic`:
the `servers` and `clients` defaultdicts, the `_trules` list, and the IPs
whose `log.error("No host found ...")` skip message was emitted. -/
structure RegAcc where
  servers : HostRules
  clients : HostRules
  trules : List TRule
  skip_logs : List String
deriving Repr

/-- The `for rule in intent` loop of `register_traffic` (podium.py 221-238):
an unresolvable source or destination IP logs an error and skips the rule
(`continue`); otherwise the rule is appended to `servers[dsthost]` and
`clients[srchost]` and its `TrafficRule` to `_trules`. -/
def regLoop (resolver : Resolver) (acc : RegAcc) : List Intent → RegAcc
  | [] => acc
  | r :: rest =>
      match resolver r.src with
      | none => regLoop resolver { acc with skip_logs := acc.skip_logs ++ [r.src] } rest
      | some srchost =>
          match resolver r.dst with
          | none => regLoop resolver { acc with skip_logs := acc.skip_logs ++ [r.dst] } rest
          | some dsthost =>
              regLoop resolver
                { servers := dAppend acc.servers dsthost r
                  clients := dAppend acc.clients srchost r
                  trules := acc.trules ++ [create_traffic_rule r]
                  skip_logs := acc.skip_logs } rest

/-- The IP an intent contributes to the skip log: the source IP when it is
unresolved, else the destination IP when that is unresolved (the two
`log.error("No host found ...")` branches), else nothing. -/
def skipLogOf (resolver : Resolver) (r : Intent) : Option String :=
  match resolver r.src with
  | none => some r.src
  | some _ =>
      match resolver r.dst with
      | none => some r.dst
      | some _ => none

/-- Merged mode (podium.py 248-249):
`for host, rules in clients.items(): servers[host].extend(rules)`. -/
def mergeMaps (servers clients : HostRules) : HostRules :=
  clients.foldl (fun acc kv => dExtend acc kv.1 kv.2) servers

/-- Outcome of `Podium.register_traffic`: the `host_rules_map` dispatch
passes — `[servers, clients]` when `TRAFFIC_START_SERVERS_FIRST` is set,
`[merged]` otherwise — the rules persisted to the local store
(`rules_app.add_rules(_trules)`), and the skip log. -/
structure RegResult where
  passes : List HostRules
  trules : List TRule
  skip_logs : List String
deriving Repr

def register_traffic (resolver : Resolver) (serversFirst : Bool)
    (intents : List Intent) : RegResult :=
  let acc := regLoop resolver ⟨[], [], [], []⟩ intents
  { passes :=
      if serversFirst then [acc.servers, acc.clients]
      else [mergeMaps acc.servers acc.clients]
    trules := acc.trules
    skip_logs := acc.skip_logs }

/-! ### Dispatch event trace for the registration passes -/

inductive DispatchRole
  | server
  | client
deriving DecidableEq, Repr

inductive DispatchAct
  | issued
  | completed
deriving DecidableEq, Repr

structure DispatchEv where
  role : DispatchRole
  host : String
  rules : List Intent
  act : DispatchAct
deriving DecidableEq, Repr

/-- The events of one dispatch pass: each per-host dispatch is issued and
later completes.  The interleaving inside one pass is concurrent; this
trace only fixes that both events of a dispatch lie inside its pass. -/
def passEvents (role : DispatchRole) (m : HostRules) : List DispatchEv :=
  m.flatMap fun kv => [⟨role, kv.1, kv.2, .issued⟩, ⟨role, kv.1, kv.2, .completed⟩]

/-- Modelled from the spec: `ThreadPool(fn, collection)`
(`lydian/utils/parallel.py`, not among the embedded sources) dispatches one
call per host and waits for all of them to finish before returning — the
registration barrier of spec section 4.2.  Since `register_traffic` runs one
`ThreadPool` per element of `host_rules_map` sequentially, every event of
the server pass precedes every event of the client pass in phased mode. -/
def phasedDispatchTrace (resolver : Resolver) (intents : List Intent) :
    List DispatchEv :=
  let acc := regLoop resolver ⟨[], [], [], []⟩ intents
  passEvents .server acc.servers ++ passEvents .client acc.clients

/-! ### Mesh ping (`Podium.run_mesh_ping`, podium.py 194-206) -/

/-- `itertools.permutations(hosts, 2)`: all ordered pairs of positions
`(i, j)`, `i ≠ j`, in lexicographic position order. -/
def perm2 {α : Type} (l : List α) : List (α × α) :=
  (List.range l.length).flatMap fun i =>
    match l[i]? with
    | none => []
    | some a => (l.eraseIdx i).map fun b => (a, b)

/-- `Podium.run_mesh_ping`: one fresh `reqid` (`uuid.uuid4()`, modelled as
the parameter `reqid`), one intent per ordered host pair — each carrying
that same `reqid` and a fresh `ruleid` from the supply `ruleids` — a single
`register_traffic` call, and the `reqid` as return value. -/
def run_mesh_ping (resolver : Resolver) (serversFirst : Bool)
    (hosts : List String) (dst_port : Nat) (protocol : String)
    (reqid : String) (ruleids : Nat → String) : String × RegResult :=
  let pairs := perm2 hosts
  let intents := pairs.enum.map fun p =>
    { reqid := reqid, ruleid := ruleids p.1, src := p.2.1, dst := p.2.2,
      port := dst_port, protocol := protocol, connected := true : Intent }
  (reqid, register_traffic resolver serversFirst intents)

/-! ## Time-window construction of the per-host result fetch
(`Podium.get_host_result`, podium.py lines 300-312) -/

/-- A value of the keyword-argument filter dict passed to
`client.results.traffic`: a plain string, or the `(str(lo), str(hi))`
timestamp range tuple. -/
inductive FilterVal
  | str (s : String)
  | range (lo hi : String)
deriving DecidableEq, Repr

abbrev Kwargs := List (String × FilterVal)

/-- Python dict assignment `kwargs[k] = v`: replace an existing binding in
place, else append. -/
def kwSet (m : Kwargs) (k : String) (v : FilterVal) : Kwargs :=
  match m with
  | [] => [(k, v)]
  | (k', v') :: rest =>
      if k' = k then (k, v) :: rest else (k', v') :: kwSet rest k v

def kwGet (m : Kwargs) (k : String) : Option FilterVal :=
  match m with
  | [] => none
  | (k', v) :: rest => if k' = k then some v else kwGet rest k

/-- The filter dict `Podium.get_host_result` hands to the agent: when
`duration` is given, `current_time = int(time.time()) - latency` (with
`now = int(time.time())` the wall clock at query issue and `latency` the
configured `TRAFFIC_STATS_QUERY_LATENCY`) and
`kwargs['timestamp'] = (str(current_time - duration), str(current_time))`;
when `duration is None` the kwargs are passed through untouched. -/
def get_host_result_kwargs (now latency : ℤ) (duration : Option ℤ)
    (kwargs : Kwargs) : Kwargs :=
  match duration with
  | none => kwargs
  | some d =>
      let current_time := now - latency
      kwSet kwargs "timestamp"
        (.range (toString (current_time - d)) (toString current_time))

/-! ## The periodic sampler state machine
(`MockTraffic.start` / `stop` / `is_running`, mocktraffic.py lines 74-105)

`_stop_switch` is a `threading.Event`; `_thread` is modelled as `none`
(no handle), `some true` (handle to a live task) or `some false` (handle to
a task that has exited).  The sampling loop `ping` runs while the stop
switch is clear, so `stopS` joining a live task terminates it; `crashS` is
the environment event of the task exiting on its own. -/

structure SamplerState where
  stop_switch : Bool
  thread : Option Bool
deriving DecidableEq, Repr

/-- `__init__`: `self._stop_switch.set()` ("Stopped until started"),
`self._thread = None`. -/
def initSampler : SamplerState := ⟨true, none⟩

/-- `is_running`: `self._thread and self._thread.is_alive()`. -/
def samplerIsRunning (s : SamplerState) : Bool := s.thread == some true

/-- `start`: clear the stop switch; launch the loop thread only `if not
self._thread` (no handle present). -/
def startS (s : SamplerState) : SamplerState :=
  let s1 : SamplerState := { s with stop_switch := false }
  match s1.thread with
  | none => { s1 with thread := some true }
  | some _ => s1

/-- `stop`: set the stop switch; if running, `join()` (the loop observes the
switch and exits) and release the handle (`self._thread = None`). -/
def stopS (s : SamplerState) : SamplerState :=
  let s1 : SamplerState := { s with stop_switch := true }
  if samplerIsRunning s1 then { s1 with thread := none } else s1

/-- Environment event: the background task exits on its own (crash); the
handle survives, the task is no longer alive. -/
def crashS (s : SamplerState) : SamplerState :=
  { s with thread := s.thread.map fun _ => false }

inductive SamplerOp
  | start
  | stop
  | crash
deriving DecidableEq, Repr

def samplerStep (s : SamplerState) (op : SamplerOp) : SamplerState :=
  match op with
  | .start => startS s
  | .stop => stopS s
  | .crash => crashS s

/-- The state after a sequence of operations from the initial state. -/
def runOps (ops : List SamplerOp) : SamplerState :=
  ops.foldl samplerStep initSampler

/-- The sampler states reachable through `start`/`stop` alone (no
spontaneous task exit): freshly stopped, or running. -/
def SamplerCrashFree (s : SamplerState) : Prop :=
  s = ⟨true, none⟩ ∨ s = ⟨false, some true⟩

/-- All sampler states reachable when the background task may also exit on
its own: the two crash-free states, plus a stale handle to an exited task
with the stop switch clear or set. -/
def SamplerReach (s : SamplerState) : Prop :=
  s = ⟨true, none⟩ ∨ s = ⟨false, some true⟩ ∨
    s = ⟨false, some false⟩ ∨ s = ⟨true, some false⟩

/-! ## MockTraffic.register_traffic (mocktraffic.py lines 40-46) -/

/-- One entry of the rule list: a valid `TrafficRule` instance, or any
other object (its repr). -/
inductive RuleEntry
  | valid (ruleid : String)
  | invalid (objRepr : String)
deriving DecidableEq, Repr

/-- The instance attributes `MockTraffic.__init__` creates
(mocktraffic.py lines 29-34). -/
def mockTrafficAttrs : List String :=
  ["_rqueue", "_interval", "_stop_switch", "_thread", "_dummy_rules"]

inductive PyErr
  | attributeError (name : String)
deriving DecidableEq, Repr

/-- `MockTraffic.register_traffic`: a non-`TrafficRule` entry is logged and
skipped (`continue`); a `TrafficRule` entry executes
`self._dummy_rule[rule.ruleid] = rule`, whose attribute reference raises
`AttributeError` unless `_dummy_rule` is an instance attribute (it is not:
`__init__` creates `_dummy_rules`).  Were the attribute present, the rule
would be stored and the loop would continue. -/
def mock_register_traffic : List RuleEntry → Except PyErr Unit
  | [] => .ok ()
  | .invalid _ :: rest => mock_register_traffic rest
  | .valid _ :: rest =>
      if "_dummy_rule" ∈ mockTrafficAttrs then mock_register_traffic rest
      else .error (.attributeError "_dummy_rule")

/-! ## Endpoint registration (`Podium.add_endpoints`, podium.py 101-129) -/

/-- Python `str.startswith`, computed structurally on the character
lists. -/
def pyStartsWith (s p : String) : Bool := p.data.isPrefixOf s.data

/-- The serialized sequence of per-item agent responses consumed by the two
enumeration loops of `add_endpoints`: a regular interface with its IPs, a
namespace IP, or the point at which the agent RPC raises. -/
inductive ClientEv
  | iface (name : String) (ips : List String)
  | nsip (ip : String)
  | err (msg : String)
deriving DecidableEq, Repr

/-- The `_ep_hosts` dict: endpoint IP to owning host IP. -/
abbrev EpMap := List (String × String)

def epLookup (m : EpMap) (k : String) : Option String :=
  match m with
  | [] => none
  | (k', v) :: rest => if k' = k then some v else epLookup rest k

/-- Python dict assignment `self._ep_hosts[ip] = hostip`. -/
def epSet (m : EpMap) (k v : String) : EpMap :=
  match m with
  | [] => [(k, v)]
  | (k', v') :: rest =>
      if k' = k then (k, v) :: rest else (k', v') :: epSet rest k v

/-- The enumeration loops inside the `try` block: regular interfaces are
kept only when the interface name starts with a configured prefix
(`NAMESPACE_INTERFACE_NAME_PREFIXES`); every surviving IP is mapped to
`hostip`.  On an RPC error the partial map is returned with `ok = false`
(the exception is about to be caught). -/
def enum_endpoints (prefixes : List String) (hostip : String) :
    EpMap → List ClientEv → EpMap × Bool
  | m, [] => (m, true)
  | m, .iface name ips :: rest =>
      if prefixes.any (fun p => pyStartsWith name p) then
        enum_endpoints prefixes hostip
          (ips.foldl (fun acc ip => epSet acc ip hostip) m) rest
      else enum_endpoints prefixes hostip m rest
  | m, .nsip ip :: rest => enum_endpoints prefixes hostip (epSet m ip hostip) rest
  | m, .err _ :: _ => (m, false)

/-- `Podium.add_endpoints`: early return when `hostip` is already a known
endpoint; otherwise enumerate, and only after the whole enumeration
succeeded add the self-mapping `self._ep_hosts[hostip] = hostip`.  The
`except` clause catches any RPC error and merely logs it, so the function
always returns a map and never raises. -/
def add_endpoints (prefixes : List String) (m : EpMap) (hostip : String)
    (evs : List ClientEv) : EpMap :=
  if (epLookup m hostip).isSome then m
  else
    let o := enum_endpoints prefixes hostip m evs
    if o.2 then epSet o.1 hostip hostip else o.1

/-- The endpoint IPs that the event sequence adds (interface IPs behind a
recognized prefix, and namespace IPs), up to the first error. -/
def addedIps (prefixes : List String) : List ClientEv → List String
  | [] => []
  | .iface name ips :: rest =>
      (if prefixes.any (fun p => pyStartsWith name p) then ips else []) ++
        addedIps prefixes rest
  | .nsip ip :: rest => ip :: addedIps prefixes rest
  | .err _ :: _ => []

/-! # Theorems -/

/-! ## C8: time window of the per-host fetch -/

theorem kwGet_kwSet (m : Kwargs) (k : String) (v : FilterVal) :
    kwGet (kwSet m k v) k = some v := by
  induction m with
  | nil => simp [kwSet, kwGet]
  | cons kv rest ih =>
      obtain ⟨k', v'⟩ := kv
      by_cases h : k' = k
      · simp [kwSet, kwGet, h]
      · simp [kwSet, kwGet, h, ih]

/-- C8: with a duration, the per-host fetch receives an explicit timestamp
filter equal to the window
`[now - queryLatency - duration, now - queryLatency]` (where `queryLatency`
is the configured `TRAFFIC_STATS_QUERY_LATENCY` skew and `now` the
wall-clock time at query issue); without a duration, no timestamp filter is
added. -/
theorem get_host_result_window (now latency d : ℤ) (kwargs : Kwargs) :
    kwGet (get_host_result_kwargs now latency (some d) kwargs) "timestamp" =
      some (.range (toString (now - latency - d)) (toString (now - latency))) ∧
    get_host_result_kwargs now latency none kwargs = kwargs :=
  ⟨kwGet_kwSet _ _ _, rfl⟩

/-! ## C9: MockTraffic.register_traffic raises on any valid rule -/

/-- C9: `MockTraffic.register_traffic` raises `AttributeError` as soon as
the rule list contains a valid `TrafficRule` instance (the assignment
targets `_dummy_rule`, never initialized — `__init__` creates
`_dummy_rules`); entries that are not `TrafficRule` instances are logged
and skipped without raising, so the call succeeds exactly when no entry is
a valid `TrafficRule`. -/
theorem mock_register_raises (rules : List RuleEntry) :
    ((∃ rid, RuleEntry.valid rid ∈ rules) →
      mock_register_traffic rules = .error (.attributeError "_dummy_rule")) ∧
    ((∀ rid, RuleEntry.valid rid ∉ rules) →
      mock_register_traffic rules = .ok ()) := by
  induction rules with
  | nil =>
      refine ⟨?_, fun _ => rfl⟩
      rintro ⟨rid, h⟩
      cases h
  | cons e rest ih =>
      cases e with
      | valid rid =>
          refine ⟨fun _ => ?_, fun h => ?_⟩
          · simp only [mock_register_traffic]
            rw [if_neg (by decide)]
          · exact absurd (List.mem_cons_self _ _) (h rid)
      | invalid s =>
          simp only [mock_register_traffic]
          refine ⟨?_, ?_⟩
          · rintro ⟨rid, hmem⟩
            exact ih.1 ⟨rid, by simpa using hmem⟩
          · intro h
            exact ih.2 fun rid hr => h rid (List.mem_cons_of_mem _ hr)

theorem mock_register_raises_witness :
    mock_register_traffic [.invalid "not a rule", .valid "rule-1"] =
      .error (.attributeError "_dummy_rule") :=
  (mock_register_raises [.invalid "not a rule", .valid "rule-1"]).1
    ⟨"rule-1", by simp⟩

/-! ## C3: latency reduction -/

/-- C3 counterexample: the claim states that for any unrecognized method
`get_latency` returns 0 and logs an error; but when no host produced a
value the function returns 0 before the method is ever inspected, so
nothing is logged for the invalid method. -/
theorem get_latency_bogus_no_values_cex :
    get_latency [none] "bogus" = ⟨0, false⟩ := rfl

/-- C3 (amended): `get_latency` drops absent (`None`) per-host values and
reduces the remaining aggregates with the same method (avg of 10 and 20 is
15.0, min is 10, max is 20); an unrecognized method returns 0 and logs an
error whenever at least one host produced a value; with no values it
returns 0 before the method check, without logging. -/
theorem get_latency_reduction (ls : List (Option ℚ)) (method : String) :
    (ls.filterMap id = [] → get_latency ls method = ⟨0, false⟩) ∧
    (ls.filterMap id ≠ [] →
      get_latency ls "avg" =
        ⟨pyRound2 ((ls.filterMap id).sum / ((ls.filterMap id).length : ℚ)),
          false⟩ ∧
      get_latency ls "min" = ⟨pyRound2 (pyMin (ls.filterMap id)), false⟩ ∧
      get_latency ls "max" = ⟨pyRound2 (pyMax (ls.filterMap id)), false⟩ ∧
      (method ≠ "avg" → method ≠ "min" → method ≠ "max" →
        get_latency ls method = ⟨0, true⟩)) ∧
    get_latency [some 10, some 20, none] "avg" = ⟨15, false⟩ ∧
    get_latency [some 10, some 20, none] "min" = ⟨10, false⟩ ∧
    get_latency [some 10, some 20, none] "max" = ⟨20, false⟩ ∧
    get_latency [some 10, some 20, none] "bogus" = ⟨0, true⟩ := by
  refine ⟨?_, ?_, ?_, ?_, ?_, rfl⟩
  · intro h
    simp [get_latency, h]
  · intro h
    have hlen : (ls.filterMap id).length ≠ 0 := by
      simpa [List.length_eq_zero] using h
    refine ⟨?_, ?_, ?_, ?_⟩
    · simp [get_latency, hlen]
    · simp [get_latency, hlen]
    · simp [get_latency, hlen]
    · intro ha hm hx
      simp [get_latency, hlen, ha, hm, hx]
  · simp +decide only [get_latency, List.filterMap_cons, List.filterMap_nil, id]
    norm_num [pyRound2, pyRoundInt]
  · simp +decide only [get_latency, List.filterMap_cons, List.filterMap_nil, id,
      pyMin]
    norm_num [pyRound2, pyRoundInt]
  · simp +decide only [get_latency, List.filterMap_cons, List.filterMap_nil, id,
      pyMax]
    norm_num [pyRound2, pyRoundInt]

theorem get_latency_reduction_witness :
    get_latency [some 10, some 20, none] "bogus" = ⟨0, true⟩ :=
  ((get_latency_reduction [some 10, some 20, none] "bogus").2.1
      (by simp)).2.2.2 (by decide) (by decide) (by decide)

/-! ## C4: pass/fail percentages -/

/-- C4: `get_traffic_pass_percent` returns
`round(success * 100 / (success + failure), 2)` and
`get_traffic_fail_percent` returns
`round(failure * 100 / (success + failure), 2)`; with a zero total the pass
percent is 0 and the fail percent is 100 (asymmetric defaults). -/
theorem traffic_percent_formula (stores : List (List TrafficRecord))
    (reqid : String) (s f : ℕ) (hst : get_traffic_stats stores reqid = ⟨s, f⟩) :
    (s + f ≠ 0 →
      get_traffic_pass_percent stores reqid =
        pyRound2 ((s : ℚ) * 100 / ((s + f : ℕ) : ℚ)) ∧
      get_traffic_fail_percent stores reqid =
        pyRound2 ((f : ℚ) * 100 / ((s + f : ℕ) : ℚ))) ∧
    (s + f = 0 →
      get_traffic_pass_percent stores reqid = 0 ∧
      get_traffic_fail_percent stores reqid = 100) := by
  constructor
  · intro h
    constructor
    · simp [get_traffic_pass_percent, hst, h]
    · simp [get_traffic_fail_percent, hst, h]
  · intro h
    constructor
    · simp [get_traffic_pass_percent, hst, h]
    · simp [get_traffic_fail_percent, hst, h]

theorem traffic_percent_formula_witness :
    get_traffic_pass_percent [] "req-0" = 0 ∧
    get_traffic_fail_percent [] "req-0" = 100 :=
  (traffic_percent_formula [] "req-0" 0 0 (by decide)).2 (by decide)

/-! ## C1: get_traffic_stats counts field lengths, not rows -/

/-- C1 (the code at the failing input): `get_traffic_stats` iterates over
the *flattened* row list returned by `get_results` and adds
`len(host_pass_record)` — the field count of one row — per row.  With a
single matching successful record the aggregated query returns exactly one
row, yet the reported `success` count is 9 (the number of TrafficRecord
fields), not 1; so `success` is the total number of fields transferred,
`9 × rows`, not the number of records. -/
theorem get_traffic_stats_counts_fields_not_rows :
    get_traffic_stats
        [[⟨"10.0.0.1", "10.0.0.2", "TCP", "443", true, "req-1", "rule-1",
           "5", "1000"⟩]] "req-1" = ⟨9, 0⟩ ∧
    (get_results
        [[⟨"10.0.0.1", "10.0.0.2", "TCP", "443", true, "req-1", "rule-1",
           "5", "1000"⟩]] "req-1" (some true)).length = 1 ∧
    (get_results
        [[⟨"10.0.0.1", "10.0.0.2", "TCP", "443", true, "req-1", "rule-1",
           "5", "1000"⟩]] "req-1" (some false)).length = 0 ∧
    (9 : ℕ) ≠ 1 := by decide

/-! ## C7: sampler start/stop idempotence and task liveness -/

theorem samplerStep_reach {s : SamplerState} (h : SamplerReach s)
    (op : SamplerOp) : SamplerReach (samplerStep s op) := by
  cases op <;> rcases h with h | h | h | h <;> subst h <;>
    simp [SamplerReach, samplerStep, startS, stopS, crashS, samplerIsRunning]

theorem runOps_reach (ops : List SamplerOp) : SamplerReach (runOps ops) := by
  have key : ∀ (l : List SamplerOp) (s : SamplerState), SamplerReach s →
      SamplerReach (l.foldl samplerStep s) := by
    intro l
    induction l with
    | nil => exact fun s h => h
    | cons op rest ih => exact fun s h => ih _ (samplerStep_reach h op)
  exact key ops initSampler (Or.inl rfl)

theorem samplerStep_crashFree {s : SamplerState} (h : SamplerCrashFree s)
    {op : SamplerOp} (hop : op ≠ SamplerOp.crash) :
    SamplerCrashFree (samplerStep s op) := by
  cases op with
  | crash => exact absurd rfl hop
  | start =>
      rcases h with h | h <;> subst h <;>
        simp [SamplerCrashFree, samplerStep, startS, samplerIsRunning]
  | stop =>
      rcases h with h | h <;> subst h <;>
        simp [SamplerCrashFree, samplerStep, stopS, samplerIsRunning]

theorem runOps_crashFree (ops : List SamplerOp)
    (h : SamplerOp.crash ∉ ops) : SamplerCrashFree (runOps ops) := by
  have key : ∀ (l : List SamplerOp) (s : SamplerState),
      SamplerOp.crash ∉ l → SamplerCrashFree s →
      SamplerCrashFree (l.foldl samplerStep s) := by
    intro l
    induction l with
    | nil => exact fun s _ hs => hs
    | cons op rest ih =>
        intro s hl hs
        have hop : op ≠ SamplerOp.crash := fun he => hl (he ▸ List.mem_cons_self _ _)
        have hrest : SamplerOp.crash ∉ rest := fun he => hl (List.mem_cons_of_mem _ he)
        exact ih _ hrest (samplerStep_crashFree hs hop)
  exact key ops initSampler h (Or.inl rfl)

/-- C7 counterexample: after the background task exits on its own (state
reached by `start` then task exit), `is_running()` reports not running —
yet `start()` on this not-running sampler only clears the stop switch and
does not launch the loop, because `_thread` still holds the stale handle
and the guard is `if not self._thread`.  This refutes the claim that
`start()` on a not-running sampler launches the sampling loop. -/
theorem sampler_start_after_crash_cex :
    runOps [SamplerOp.start, SamplerOp.crash] =
      ⟨false, some false⟩ ∧
    samplerIsRunning (runOps [SamplerOp.start, SamplerOp.crash]) = false ∧
    startS (runOps [SamplerOp.start, SamplerOp.crash]) =
      ⟨false, some false⟩ ∧
    samplerIsRunning (startS (runOps [SamplerOp.start, SamplerOp.crash])) =
      false := by decide

/-- C7 (amended): `start()` on a running sampler and `stop()` on a stopped
sampler are no-ops (`stop()` always leaves the task handle and the
not-running status unchanged, and is a complete no-op in every crash-free
state); `start()` on a not-running sampler clears the stop signal and
launches the sampling loop provided the task handle was released — true in
every crash-free execution, but not after the task exited on its own; and
`is_running()` reflects actual task liveness, so a task that exited is
reported as not running even if `stop()` was never called. -/
theorem sampler_start_stop_idempotent (ops : List SamplerOp) :
    (samplerIsRunning (runOps ops) = true →
      startS (runOps ops) = runOps ops) ∧
    (samplerIsRunning (runOps ops) = false →
      (stopS (runOps ops)).thread = (runOps ops).thread ∧
      samplerIsRunning (stopS (runOps ops)) = false) ∧
    (SamplerOp.crash ∉ ops → samplerIsRunning (runOps ops) = false →
      stopS (runOps ops) = runOps ops ∧
      startS (runOps ops) = ⟨false, some true⟩ ∧
      samplerIsRunning (startS (runOps ops)) = true) ∧
    (∀ s : SamplerState, samplerIsRunning (crashS s) = false) := by
  refine ⟨?_, ?_, ?_, ?_⟩
  · intro h
    rcases runOps_reach ops with hr | hr | hr | hr <;> rw [hr] <;>
      first
      | rfl
      | (rw [hr] at h; simp [samplerIsRunning] at h)
  · intro h
    rcases runOps_reach ops with hr | hr | hr | hr <;> rw [hr] <;>
      first
      | exact ⟨rfl, rfl⟩
      | (rw [hr] at h; simp [samplerIsRunning] at h)
  · intro hcf h
    rcases runOps_crashFree ops hcf with hr | hr <;> rw [hr]
    · exact ⟨rfl, rfl, rfl⟩
    · rw [hr] at h
      simp [samplerIsRunning] at h
  · intro s
    rcases s with ⟨sw, _ | b⟩ <;> simp [crashS, samplerIsRunning]

theorem sampler_start_stop_idempotent_witness :
    startS (runOps [SamplerOp.start]) = runOps [SamplerOp.start] ∧
    stopS (runOps [SamplerOp.start, SamplerOp.stop]) =
      runOps [SamplerOp.start, SamplerOp.stop] ∧
    samplerIsRunning (crashS initSampler) = false :=
  ⟨(sampler_start_stop_idempotent [SamplerOp.start]).1 (by decide),
   ((sampler_start_stop_idempotent [SamplerOp.start, SamplerOp.stop]).2.2.1
      (by decide) (by decide)).1,
   (sampler_start_stop_idempotent []).2.2.2 initSampler⟩

/-! ## C10: add_endpoints is not atomic on failure -/

theorem epLookup_epSet_self (m : EpMap) (k v : String) :
    epLookup (epSet m k v) k = some v := by
  induction m with
  | nil => simp [epSet, epLookup]
  | cons kv rest ih =>
      obtain ⟨k', v'⟩ := kv
      by_cases h : k' = k
      · simp [epSet, epLookup, h]
      · simp [epSet, epLookup, h, ih]

theorem epLookup_epSet_ne (m : EpMap) {k' k : String} (h : k' ≠ k)
    (v : String) : epLookup (epSet m k' v) k = epLookup m k := by
  induction m with
  | nil => simp [epSet, epLookup, h]
  | cons kv rest ih =>
      obtain ⟨k0, v0⟩ := kv
      by_cases h0 : k0 = k'
      · simp [epSet, epLookup, h0, h]
      · by_cases h1 : k0 = k <;> simp [epSet, epLookup, h0, h1, ih, Ne.symm h]

theorem epLookup_foldl_not_mem (ips : List String) (m : EpMap)
    {k : String} (h : k ∉ ips) (hostip : String) :
    epLookup (ips.foldl (fun acc ip => epSet acc ip hostip) m) k =
      epLookup m k := by
  induction ips generalizing m with
  | nil => rfl
  | cons ip rest ih =>
      have hk : k ∉ rest := fun hr => h (List.mem_cons_of_mem _ hr)
      have hne : ip ≠ k := fun he => h (he ▸ List.mem_cons_self _ _)
      simp only [List.foldl_cons]
      rw [ih _ hk, epLookup_epSet_ne _ hne]

theorem epLookup_foldl_mem (ips : List String) (m : EpMap)
    {k : String} (h : k ∈ ips) (hostip : String) :
    epLookup (ips.foldl (fun acc ip => epSet acc ip hostip) m) k =
      some hostip := by
  induction ips generalizing m with
  | nil => cases h
  | cons ip rest ih =>
      simp only [List.foldl_cons]
      by_cases hk : k ∈ rest
      · exact ih _ hk
      · have he : k = ip := by
          rcases List.mem_cons.mp h with h1 | h1
          · exact h1
          · exact absurd h1 hk
        rw [epLookup_foldl_not_mem _ _ hk, he, epLookup_epSet_self]

theorem enum_lookup_not_added (prefixes : List String) (hostip : String)
    (evs : List ClientEv) (m : EpMap) {k : String}
    (h : k ∉ addedIps prefixes evs) :
    epLookup (enum_endpoints prefixes hostip m evs).1 k = epLookup m k := by
  induction evs generalizing m with
  | nil => rfl
  | cons ev rest ih =>
      cases ev with
      | iface name ips =>
          by_cases hc : prefixes.any (fun p => pyStartsWith name p)
          · have h1 : k ∉ ips := fun hk => by
              simp [addedIps, hc] at h
              exact h.1 hk
            have h2 : k ∉ addedIps prefixes rest := fun hk => by
              simp [addedIps, hc] at h
              exact h.2 hk
            simp only [enum_endpoints, hc, if_true]
            rw [ih _ h2, epLookup_foldl_not_mem _ _ h1]
          · have h2 : k ∉ addedIps prefixes rest := by
              simpa [addedIps, hc] using h
            simp only [enum_endpoints, hc, if_false]
            exact ih _ h2
      | nsip ip =>
          have hne : ip ≠ k := fun he => by
            simp [addedIps, he] at h
          have h2 : k ∉ addedIps prefixes rest := fun hk => by
            simp [addedIps] at h
            exact h.2 hk
          simp only [enum_endpoints]
          rw [ih _ h2, epLookup_epSet_ne _ hne]
      | err s => rfl

theorem enum_lookup_added (prefixes : List String) (hostip : String)
    (evs : List ClientEv) (m : EpMap) {k : String}
    (hpre : ∀ s, ClientEv.err s ∉ evs) (h : k ∈ addedIps prefixes evs) :
    epLookup (enum_endpoints prefixes hostip m evs).1 k = some hostip := by
  induction evs generalizing m with
  | nil => cases h
  | cons ev rest ih =>
      have hrest : ∀ s, ClientEv.err s ∉ rest :=
        fun s hs => hpre s (List.mem_cons_of_mem _ hs)
      cases ev with
      | iface name ips =>
          by_cases hc : prefixes.any (fun p => pyStartsWith name p)
          · simp only [enum_endpoints, hc, if_true]
            by_cases hk : k ∈ addedIps prefixes rest
            · exact ih _ hrest hk
            · have hkips : k ∈ ips := by
                simp [addedIps, hc] at h
                rcases h with h1 | h1
                · exact h1
                · exact absurd h1 hk
              rw [enum_lookup_not_added _ _ _ _ hk,
                epLookup_foldl_mem _ _ hkips]
          · simp only [enum_endpoints, hc, if_false]
            have hk : k ∈ addedIps prefixes rest := by
              simpa [addedIps, hc] using h
            exact ih _ hrest hk
      | nsip ip =>
          simp only [enum_endpoints]
          by_cases hk : k ∈ addedIps prefixes rest
          · exact ih _ hrest hk
          · have he : k = ip := by
              simp [addedIps] at h
              rcases h with h1 | h1
              · exact h1
              · exact absurd h1 hk
            rw [enum_lookup_not_added _ _ _ _ hk, he, epLookup_epSet_self]
      | err s => exact absurd (List.mem_cons_self _ _) (hpre s)

theorem enum_ok_of_no_err (prefixes : List String) (hostip : String)
    (evs : List ClientEv) (m : EpMap)
    (hpre : ∀ s, ClientEv.err s ∉ evs) :
    (enum_endpoints prefixes hostip m evs).2 = true := by
  induction evs generalizing m with
  | nil => rfl
  | cons ev rest ih =>
      have hrest : ∀ s, ClientEv.err s ∉ rest :=
        fun s hs => hpre s (List.mem_cons_of_mem _ hs)
      cases ev with
      | iface name ips =>
          by_cases hc : prefixes.any (fun p => pyStartsWith name p)
          · simp only [enum_endpoints, hc, if_true]
            exact ih _ hrest
          · simp [enum_endpoints, hc]
            exact ih _ hrest
      | nsip ip => exact ih _ hrest
      | err s => exact absurd (List.mem_cons_self _ _) (hpre s)

theorem enum_append_err (prefixes : List String) (hostip : String)
    (pre : List ClientEv) (m : EpMap)
    (hpre : ∀ s, ClientEv.err s ∉ pre) (msg : String) (post : List ClientEv) :
    enum_endpoints prefixes hostip m (pre ++ ClientEv.err msg :: post) =
      ((enum_endpoints prefixes hostip m pre).1, false) := by
  induction pre generalizing m with
  | nil => rfl
  | cons ev rest ih =>
      have hrest : ∀ s, ClientEv.err s ∉ rest :=
        fun s hs => hpre s (List.mem_cons_of_mem _ hs)
      cases ev with
      | iface name ips =>
          by_cases hc : prefixes.any (fun p => pyStartsWith name p)
          · simp only [List.cons_append, enum_endpoints, hc, if_true]
            exact ih _ hrest
          · simp [List.cons_append, enum_endpoints, hc]
            exact ih _ hrest
      | nsip ip =>
          simp only [List.cons_append, enum_endpoints]
          exact ih _ hrest
      | err s => exact absurd (List.mem_cons_self _ _) (hpre s)

/-- C10: `add_endpoints` is not atomic on failure — when the agent RPC
raises partway through enumeration, every endpoint mapping added before the
failure point stays in the registry, the `hostip → hostip` self-mapping is
not added (it is only added after the enumeration fully succeeds), and the
exception is caught, so `add_endpoints` returns (a map) instead of
raising. -/
theorem add_endpoints_partial_on_failure (prefixes : List String)
    (m : EpMap) (hostip : String) (pre post : List ClientEv) (msg : String)
    (hknown : epLookup m hostip = none)
    (hpre : ∀ s, ClientEv.err s ∉ pre) :
    add_endpoints prefixes m hostip (pre ++ ClientEv.err msg :: post) =
      (enum_endpoints prefixes hostip m pre).1 ∧
    (∀ ip, ip ∈ addedIps prefixes pre →
      epLookup
        (add_endpoints prefixes m hostip (pre ++ ClientEv.err msg :: post))
        ip = some hostip) ∧
    (hostip ∉ addedIps prefixes pre →
      epLookup
        (add_endpoints prefixes m hostip (pre ++ ClientEv.err msg :: post))
        hostip = none) ∧
    (∀ evs2 : List ClientEv, (∀ s, ClientEv.err s ∉ evs2) →
      epLookup (add_endpoints prefixes m hostip evs2) hostip = some hostip) := by
  have hadd : add_endpoints prefixes m hostip
      (pre ++ ClientEv.err msg :: post) =
      (enum_endpoints prefixes hostip m pre).1 := by
    simp [add_endpoints, hknown, enum_append_err prefixes hostip pre m hpre]
  refine ⟨hadd, ?_, ?_, ?_⟩
  · intro ip hip
    rw [hadd]
    exact enum_lookup_added prefixes hostip pre m hpre hip
  · intro hnotin
    rw [hadd, enum_lookup_not_added prefixes hostip pre m hnotin, hknown]
  · intro evs2 h2
    simp [add_endpoints, hknown,
      enum_ok_of_no_err prefixes hostip evs2 m h2, epLookup_epSet_self]

theorem add_endpoints_partial_on_failure_witness :
    epLookup
      (add_endpoints ["eth"] [] "10.0.0.9"
        ([ClientEv.iface "eth0" ["192.168.0.5"], ClientEv.nsip "172.16.0.1"]
          ++ ClientEv.err "rpc failed" :: [ClientEv.nsip "ignored"]))
      "192.168.0.5" = some "10.0.0.9" :=
  (add_endpoints_partial_on_failure ["eth"] [] "10.0.0.9"
      [ClientEv.iface "eth0" ["192.168.0.5"], ClientEv.nsip "172.16.0.1"]
      [ClientEv.nsip "ignored"] "rpc failed" rfl
      (by simp)).2.1 "192.168.0.5" (by decide)

/-! ## Supporting lemmas on the registration maps -/

theorem mem_values_dAppend {m : HostRules} {k : String} {v : Intent}
    {hr : String × List Intent} {x : Intent}
    (hhr : hr ∈ dAppend m k v) (hx : x ∈ hr.2) :
    (∃ hr0 ∈ m, x ∈ hr0.2) ∨ x = v := by
  induction m with
  | nil =>
      simp only [dAppend, List.mem_singleton] at hhr
      subst hhr
      simp at hx
      exact Or.inr hx
  | cons kv rest ih =>
      obtain ⟨k', vs⟩ := kv
      by_cases h : k' = k
      · simp only [dAppend, h, if_true] at hhr
        rcases List.mem_cons.mp hhr with h1 | h1
        · subst h1
          simp only [List.mem_append, List.mem_singleton] at hx
          rcases hx with hx | hx
          · exact Or.inl ⟨(k', vs), List.mem_cons_self _ _, hx⟩
          · exact Or.inr hx
        · exact Or.inl ⟨hr, List.mem_cons_of_mem _ h1, hx⟩
      · simp only [dAppend, h, if_false] at hhr
        rcases List.mem_cons.mp hhr with h1 | h1
        · subst h1
          exact Or.inl ⟨(k', vs), List.mem_cons_self _ _, hx⟩
        · rcases ih h1 with ⟨hr0, h0, hx0⟩ | h0
          · exact Or.inl ⟨hr0, List.mem_cons_of_mem _ h0, hx0⟩
          · exact Or.inr h0

theorem mem_values_dExtend {m : HostRules} {k : String} {vs : List Intent}
    {hr : String × List Intent} {x : Intent}
    (hhr : hr ∈ dExtend m k vs) (hx : x ∈ hr.2) :
    (∃ hr0 ∈ m, x ∈ hr0.2) ∨ x ∈ vs := by
  induction m with
  | nil =>
      simp only [dExtend, List.mem_singleton] at hhr
      subst hhr
      exact Or.inr hx
  | cons kv rest ih =>
      obtain ⟨k', vs'⟩ := kv
      by_cases h : k' = k
      · simp only [dExtend, h, if_true] at hhr
        rcases List.mem_cons.mp hhr with h1 | h1
        · subst h1
          rcases List.mem_append.mp hx with hx | hx
          · exact Or.inl ⟨(k', vs'), List.mem_cons_self _ _, hx⟩
          · exact Or.inr hx
        · exact Or.inl ⟨hr, List.mem_cons_of_mem _ h1, hx⟩
      · simp only [dExtend, h, if_false] at hhr
        rcases List.mem_cons.mp hhr with h1 | h1
        · subst h1
          exact Or.inl ⟨(k', vs'), List.mem_cons_self _ _, hx⟩
        · rcases ih h1 with ⟨hr0, h0, hx0⟩ | h0
          · exact Or.inl ⟨hr0, List.mem_cons_of_mem _ h0, hx0⟩
          · exact Or.inr h0

theorem mem_values_mergeMaps {servers clients : HostRules}
    {hr : String × List Intent} {x : Intent}
    (hhr : hr ∈ mergeMaps servers clients) (hx : x ∈ hr.2) :
    (∃ a ∈ servers, x ∈ a.2) ∨ ∃ a ∈ clients, x ∈ a.2 := by
  induction clients generalizing servers with
  | nil => exact Or.inl ⟨hr, hhr, hx⟩
  | cons kv rest ih =>
      obtain ⟨k, vs⟩ := kv
      have hstep : mergeMaps servers ((k, vs) :: rest) =
          mergeMaps (dExtend servers k vs) rest := rfl
      rw [hstep] at hhr
      rcases ih hhr with ⟨a, ha, hxa⟩ | ⟨a, ha, hxa⟩
      · rcases mem_values_dExtend ha hxa with ⟨a0, h0, hx0⟩ | h0
        · exact Or.inl ⟨a0, h0, hx0⟩
        · exact Or.inr ⟨(k, vs), List.mem_cons_self _ _, h0⟩
      · exact Or.inr ⟨a, List.mem_cons_of_mem _ ha, hxa⟩

theorem exists_value_dAppend_self (m : HostRules) (k : String) (v : Intent) :
    ∃ hr ∈ dAppend m k v, v ∈ hr.2 := by
  induction m with
  | nil => exact ⟨(k, [v]), List.mem_singleton.mpr rfl, List.mem_singleton.mpr rfl⟩
  | cons kv rest ih =>
      obtain ⟨k', vs⟩ := kv
      by_cases h : k' = k
      · refine ⟨(k', vs ++ [v]), ?_, ?_⟩
        · simp [dAppend, h]
        · simp
      · obtain ⟨hr, hhr, hv⟩ := ih
        exact ⟨hr, by simp [dAppend, h, hhr], hv⟩

theorem exists_value_dAppend_mono {m : HostRules} {x : Intent}
    (h : ∃ hr ∈ m, x ∈ hr.2) (k : String) (v : Intent) :
    ∃ hr ∈ dAppend m k v, x ∈ hr.2 := by
  induction m with
  | nil =>
      obtain ⟨hr, hhr, _⟩ := h
      cases hhr
  | cons kv rest ih =>
      obtain ⟨k', vs⟩ := kv
      obtain ⟨hr, hhr, hx⟩ := h
      by_cases hk : k' = k
      · rcases List.mem_cons.mp hhr with h1 | h1
        · subst h1
          exact ⟨(k', vs ++ [v]), by simp [dAppend, hk],
            List.mem_append_left _ hx⟩
        · exact ⟨hr, by simp [dAppend, hk, h1], hx⟩
      · rcases List.mem_cons.mp hhr with h1 | h1
        · subst h1
          exact ⟨(k', vs), by simp [dAppend, hk], hx⟩
        · obtain ⟨hr2, hhr2, hx2⟩ := ih ⟨hr, h1, hx⟩
          exact ⟨hr2, by simp [dAppend, hk, hhr2], hx2⟩

theorem exists_value_dExtend_mono {m : HostRules} {x : Intent}
    (h : ∃ hr ∈ m, x ∈ hr.2) (k : String) (vs : List Intent) :
    ∃ hr ∈ dExtend m k vs, x ∈ hr.2 := by
  induction m with
  | nil =>
      obtain ⟨hr, hhr, _⟩ := h
      cases hhr
  | cons kv rest ih =>
      obtain ⟨k', vs'⟩ := kv
      obtain ⟨hr, hhr, hx⟩ := h
      by_cases hk : k' = k
      · rcases List.mem_cons.mp hhr with h1 | h1
        · subst h1
          exact ⟨(k', vs' ++ vs), by simp [dExtend, hk],
            List.mem_append_left _ hx⟩
        · exact ⟨hr, by simp [dExtend, hk, h1], hx⟩
      · rcases List.mem_cons.mp hhr with h1 | h1
        · subst h1
          exact ⟨(k', vs'), by simp [dExtend, hk], hx⟩
        · obtain ⟨hr2, hhr2, hx2⟩ := ih ⟨hr, h1, hx⟩
          exact ⟨hr2, by simp [dExtend, hk, hhr2], hx2⟩

theorem exists_value_mergeMaps_mono {servers : HostRules} {x : Intent}
    (h : ∃ hr ∈ servers, x ∈ hr.2) (clients : HostRules) :
    ∃ hr ∈ mergeMaps servers clients, x ∈ hr.2 := by
  induction clients generalizing servers with
  | nil => exact h
  | cons kv rest ih =>
      obtain ⟨k, vs⟩ := kv
      exact ih (exists_value_dExtend_mono h k vs)

theorem mem_keys_dAppend {m : HostRules} {k x : String} {v : Intent}
    (h : x ∈ (dAppend m k v).map Prod.fst) :
    x ∈ m.map Prod.fst ∨ x = k := by
  induction m with
  | nil =>
      simp only [dAppend, List.map_cons, List.map_nil, List.mem_singleton] at h
      exact Or.inr h
  | cons kv rest ih =>
      obtain ⟨k', vs⟩ := kv
      by_cases hk : k' = k
      · simp only [dAppend, hk, if_true, List.map_cons, List.mem_cons] at h
        rcases h with h | h
        · exact Or.inr (by simpa [hk] using h)
        · exact Or.inl (by simp [h])
      · simp only [dAppend, hk, if_false, List.map_cons, List.mem_cons] at h
        rcases h with h | h
        · exact Or.inl (by simp [h])
        · rcases ih h with h1 | h1
          · exact Or.inl (List.mem_cons_of_mem _ h1)
          · exact Or.inr h1

theorem keys_nodup_dAppend {m : HostRules} {k : String} {v : Intent}
    (h : (m.map Prod.fst).Nodup) :
    ((dAppend m k v).map Prod.fst).Nodup := by
  induction m with
  | nil => simp [dAppend]
  | cons kv rest ih =>
      obtain ⟨k', vs⟩ := kv
      simp only [List.map_cons, List.nodup_cons] at h
      by_cases hk : k' = k
      · simpa [dAppend, hk, List.nodup_cons] using h
      · simp only [dAppend, hk, if_false, List.map_cons, List.nodup_cons]
        refine ⟨fun hmem => ?_, ih h.2⟩
        rcases mem_keys_dAppend hmem with h1 | h1
        · exact h.1 h1
        · exact hk h1

theorem lookupRules_dExtend_self (m : HostRules) (k : String)
    (vs : List Intent) :
    lookupRules (dExtend m k vs) k = lookupRules m k ++ vs := by
  induction m with
  | nil => simp [dExtend, lookupRules]
  | cons kv rest ih =>
      obtain ⟨k', vs'⟩ := kv
      by_cases hk : k' = k
      · simp [dExtend, lookupRules, hk]
      · simp [dExtend, lookupRules, hk, ih]

theorem lookupRules_dExtend_ne (m : HostRules) {k' k : String}
    (h : k' ≠ k) (vs : List Intent) :
    lookupRules (dExtend m k' vs) k = lookupRules m k := by
  induction m with
  | nil => simp [dExtend, lookupRules, h]
  | cons kv rest ih =>
      obtain ⟨k0, vs0⟩ := kv
      by_cases h0 : k0 = k'
      · subst h0
        simp [dExtend, lookupRules, h]
      · simp [dExtend, lookupRules, h0, ih]

theorem lookupRules_eq_nil_of_not_mem_keys {m : HostRules} {k : String}
    (h : k ∉ m.map Prod.fst) : lookupRules m k = [] := by
  induction m with
  | nil => rfl
  | cons kv rest ih =>
      obtain ⟨k', vs⟩ := kv
      simp only [List.map_cons, List.mem_cons] at h
      push_neg at h
      simp only [lookupRules]
      rw [if_neg fun he => h.1 he.symm]
      exact ih h.2

theorem lookupRules_mergeMaps (servers clients : HostRules)
    (h : (clients.map Prod.fst).Nodup) (host : String) :
    lookupRules (mergeMaps servers clients) host =
      lookupRules servers host ++ lookupRules clients host := by
  induction clients generalizing servers with
  | nil => simp [mergeMaps, lookupRules]
  | cons kv rest ih =>
      obtain ⟨k, vs⟩ := kv
      simp only [List.map_cons, List.nodup_cons] at h
      have hstep : mergeMaps servers ((k, vs) :: rest) =
          mergeMaps (dExtend servers k vs) rest := rfl
      rw [hstep, ih _ h.2]
      by_cases hk : k = host
      · subst hk
        rw [lookupRules_dExtend_self,
          lookupRules_eq_nil_of_not_mem_keys h.1]
        simp [lookupRules]
      · rw [lookupRules_dExtend_ne _ hk]
        simp [lookupRules, hk]

/-! ## Supporting lemmas on the registration loop -/

theorem regLoop_trules (resolver : Resolver) (acc : RegAcc)
    (l : List Intent) :
    (regLoop resolver acc l).trules =
      acc.trules ++
        (l.filter fun r =>
          (resolver r.src).isSome && (resolver r.dst).isSome).map
          create_traffic_rule := by
  induction l generalizing acc with
  | nil => simp [regLoop]
  | cons r rest ih =>
      cases hsrc : resolver r.src with
      | none => simp [regLoop, hsrc, ih, List.filter_cons]
      | some sh =>
          cases hdst : resolver r.dst with
          | none => simp [regLoop, hsrc, hdst, ih, List.filter_cons]
          | some dh => simp [regLoop, hsrc, hdst, ih, List.filter_cons]

theorem regLoop_skip_logs (resolver : Resolver) (acc : RegAcc)
    (l : List Intent) :
    (regLoop resolver acc l).skip_logs =
      acc.skip_logs ++ l.filterMap (skipLogOf resolver) := by
  induction l generalizing acc with
  | nil => simp [regLoop]
  | cons r rest ih =>
      cases hsrc : resolver r.src with
      | none => simp [regLoop, hsrc, ih, List.filterMap_cons, skipLogOf]
      | some sh =>
          cases hdst : resolver r.dst with
          | none => simp [regLoop, hsrc, hdst, ih, List.filterMap_cons, skipLogOf]
          | some dh => simp [regLoop, hsrc, hdst, ih, List.filterMap_cons, skipLogOf]

theorem regLoop_servers_values (resolver : Resolver) (l : List Intent)
    (acc : RegAcc) {hr : String × List Intent} {x : Intent}
    (hhr : hr ∈ (regLoop resolver acc l).servers) (hx : x ∈ hr.2) :
    (∃ hr0 ∈ acc.servers, x ∈ hr0.2) ∨
      (x ∈ l ∧ (resolver x.src).isSome = true ∧
        (resolver x.dst).isSome = true) := by
  induction l generalizing acc with
  | nil => exact Or.inl ⟨hr, hhr, hx⟩
  | cons r rest ih =>
      cases hsrc : resolver r.src with
      | none =>
          rw [regLoop, hsrc] at hhr
          rcases ih _ hhr with h | ⟨h1, h2⟩
          · exact Or.inl h
          · exact Or.inr ⟨List.mem_cons_of_mem _ h1, h2⟩
      | some sh =>
          cases hdst : resolver r.dst with
          | none =>
              rw [regLoop, hsrc, hdst] at hhr
              rcases ih _ hhr with h | ⟨h1, h2⟩
              · exact Or.inl h
              · exact Or.inr ⟨List.mem_cons_of_mem _ h1, h2⟩
          | some dh =>
              rw [regLoop, hsrc, hdst] at hhr
              rcases ih _ hhr with h | ⟨h1, h2⟩
              · rcases h with ⟨hr0, h0, hx0⟩
                rcases mem_values_dAppend h0 hx0 with h1 | h1
                · exact Or.inl h1
                · subst h1
                  exact Or.inr ⟨List.mem_cons_self _ _,
                    by simp [hsrc], by simp [hdst]⟩
              · exact Or.inr ⟨List.mem_cons_of_mem _ h1, h2⟩

theorem regLoop_clients_values (resolver : Resolver) (l : List Intent)
    (acc : RegAcc) {hr : String × List Intent} {x : Intent}
    (hhr : hr ∈ (regLoop resolver acc l).clients) (hx : x ∈ hr.2) :
    (∃ hr0 ∈ acc.clients, x ∈ hr0.2) ∨
      (x ∈ l ∧ (resolver x.src).isSome = true ∧
        (resolver x.dst).isSome = true) := by
  induction l generalizing acc with
  | nil => exact Or.inl ⟨hr, hhr, hx⟩
  | cons r rest ih =>
      cases hsrc : resolver r.src with
      | none =>
          rw [regLoop, hsrc] at hhr
          rcases ih _ hhr with h | ⟨h1, h2⟩
          · exact Or.inl h
          · exact Or.inr ⟨List.mem_cons_of_mem _ h1, h2⟩
      | some sh =>
          cases hdst : resolver r.dst with
          | none =>
              rw [regLoop, hsrc, hdst] at hhr
              rcases ih _ hhr with h | ⟨h1, h2⟩
              · exact Or.inl h
              · exact Or.inr ⟨List.mem_cons_of_mem _ h1, h2⟩
          | some dh =>
              rw [regLoop, hsrc, hdst] at hhr
              rcases ih _ hhr with h | ⟨h1, h2⟩
              · rcases h with ⟨hr0, h0, hx0⟩
                rcases mem_values_dAppend h0 hx0 with h1 | h1
                · exact Or.inl h1
                · subst h1
                  exact Or.inr ⟨List.mem_cons_self _ _,
                    by simp [hsrc], by simp [hdst]⟩
              · exact Or.inr ⟨List.mem_cons_of_mem _ h1, h2⟩

theorem regLoop_servers_mono (resolver : Resolver) (l : List Intent)
    (acc : RegAcc) {x : Intent} (h : ∃ hr ∈ acc.servers, x ∈ hr.2) :
    ∃ hr ∈ (regLoop resolver acc l).servers, x ∈ hr.2 := by
  induction l generalizing acc with
  | nil => exact h
  | cons r rest ih =>
      cases hsrc : resolver r.src with
      | none =>
          rw [regLoop, hsrc]
          exact ih _ h
      | some sh =>
          cases hdst : resolver r.dst with
          | none =>
              rw [regLoop, hsrc, hdst]
              exact ih _ h
          | some dh =>
              rw [regLoop, hsrc, hdst]
              exact ih _ (exists_value_dAppend_mono h dh r)

theorem regLoop_servers_exists (resolver : Resolver) (l : List Intent)
    (acc : RegAcc) {r : Intent} (hmem : r ∈ l)
    (hsrc : (resolver r.src).isSome = true)
    (hdst : (resolver r.dst).isSome = true) :
    ∃ hr ∈ (regLoop resolver acc l).servers, r ∈ hr.2 := by
  induction l generalizing acc with
  | nil => cases hmem
  | cons r0 rest ih =>
      rcases List.mem_cons.mp hmem with he | he
      · subst he
        obtain ⟨sh, hs⟩ := Option.isSome_iff_exists.mp hsrc
        obtain ⟨dh, hd⟩ := Option.isSome_iff_exists.mp hdst
        rw [regLoop, hs, hd]
        exact regLoop_servers_mono resolver rest _
          (exists_value_dAppend_self _ _ _)
      · cases hs : resolver r0.src with
        | none =>
            rw [regLoop, hs]
            exact ih _ he
        | some sh =>
            cases hd : resolver r0.dst with
            | none =>
                rw [regLoop, hs, hd]
                exact ih _ he
            | some dh =>
                rw [regLoop, hs, hd]
                exact ih _ he

theorem regLoop_clients_keys_nodup (resolver : Resolver) (l : List Intent)
    (acc : RegAcc) (h : (acc.clients.map Prod.fst).Nodup) :
    (((regLoop resolver acc l).clients).map Prod.fst).Nodup := by
  induction l generalizing acc with
  | nil => exact h
  | cons r rest ih =>
      cases hsrc : resolver r.src with
      | none =>
          rw [regLoop, hsrc]
          exact ih _ h
      | some sh =>
          cases hdst : resolver r.dst with
          | none =>
              rw [regLoop, hsrc, hdst]
              exact ih _ h
          | some dh =>
              rw [regLoop, hsrc, hdst]
              exact ih _ (keys_nodup_dAppend h)

/-! ## Supporting lemmas on the dispatch trace and on `perm2` -/

theorem role_of_mem_passEvents {role : DispatchRole} {m : HostRules}
    {e : DispatchEv} (he : e ∈ passEvents role m) : e.role = role := by
  simp only [passEvents, List.mem_flatMap] at he
  obtain ⟨kv, _, he⟩ := he
  rcases List.mem_cons.mp he with he | he
  · subst he; rfl
  · rcases List.mem_cons.mp he with he | he
    · subst he; rfl
    · cases he

theorem lt_length_left_of_role_server {s c : List DispatchEv} {i : ℕ}
    (h : i < (s ++ c).length)
    (_hs : ∀ e ∈ s, e.role = DispatchRole.server)
    (hc : ∀ e ∈ c, e.role = DispatchRole.client)
    (hrole : ((s ++ c).get ⟨i, h⟩).role = DispatchRole.server) :
    i < s.length := by
  by_contra hle
  push_neg at hle
  have hmem : (s ++ c).get ⟨i, h⟩ ∈ c := by
    rw [List.get_eq_getElem, List.getElem_append_right hle]
    exact List.getElem_mem _
  rw [hc _ hmem] at hrole
  exact DispatchRole.noConfusion hrole

theorem length_le_of_role_client {s c : List DispatchEv} {j : ℕ}
    (h : j < (s ++ c).length)
    (hs : ∀ e ∈ s, e.role = DispatchRole.server)
    (_hc : ∀ e ∈ c, e.role = DispatchRole.client)
    (hrole : ((s ++ c).get ⟨j, h⟩).role = DispatchRole.client) :
    s.length ≤ j := by
  by_contra hlt
  push_neg at hlt
  have hmem : (s ++ c).get ⟨j, h⟩ ∈ s := by
    rw [List.get_eq_getElem, List.getElem_append_left hlt]
    exact List.getElem_mem _
  rw [hs _ hmem] at hrole
  exact DispatchRole.noConfusion hrole

theorem snd_mem_of_mem_enumFrom {α : Type} {l : List α} :
    ∀ (n : ℕ) (x : ℕ × α), x ∈ l.enumFrom n → x.2 ∈ l := by
  induction l with
  | nil =>
      intro n x h
      cases h
  | cons a t ih =>
      intro n x h
      rw [List.enumFrom_cons] at h
      rcases List.mem_cons.mp h with h | h
      · subst h
        exact List.mem_cons_self _ _
      · exact List.mem_cons_of_mem _ (ih _ _ h)

theorem snd_mem_of_mem_enum {α : Type} {l : List α} {x : ℕ × α}
    (h : x ∈ l.enum) : x.2 ∈ l :=
  snd_mem_of_mem_enumFrom 0 x h

theorem perm2_length {α : Type} (l : List α) :
    (perm2 l).length = l.length * (l.length - 1) := by
  rw [perm2, List.length_flatMap]
  simp only [Function.comp_def]
  have hmap : (List.range l.length).map
      (fun i => (match l[i]? with
        | none => ([] : List (α × α))
        | some a => (l.eraseIdx i).map fun b => (a, b)).length) =
      (List.range l.length).map fun _ => l.length - 1 := by
    apply List.map_congr_left
    intro i hi
    have hi' : i < l.length := List.mem_range.mp hi
    rw [List.getElem?_eq_getElem hi']
    simp [List.length_eraseIdx, hi']
  rw [hmap, List.map_const', List.sum_replicate, List.length_range,
    smul_eq_mul]

theorem perm2_mem {α : Type} {l : List α} {a b : α}
    (h : (a, b) ∈ perm2 l) : a ∈ l ∧ b ∈ l := by
  rw [perm2, List.mem_flatMap] at h
  obtain ⟨i, _, h⟩ := h
  cases hg : l[i]? with
  | none =>
      rw [hg] at h
      cases h
  | some c =>
      rw [hg] at h
      rw [List.mem_map] at h
      obtain ⟨b', hb', he⟩ := h
      injection he with he1 he2
      subst he1
      subst he2
      exact ⟨List.getElem?_mem hg, List.eraseIdx_subset _ _ hb'⟩

/-! ## C2: phased and merged registration dispatch -/

/-- C2: in phased mode (`TRAFFIC_START_SERVERS_FIRST`), the dispatch passes
are `[servers, clients]` and, in the dispatch event trace, every
server-side dispatch event (issue and completion) precedes every
client-side dispatch event — so every server registration completes before
any client registration is issued; in merged mode there is a single
dispatch pass whose per-host rule list is the server list extended by the
client list. -/
theorem register_traffic_ordering (resolver : Resolver)
    (intents : List Intent) :
    (register_traffic resolver true intents).passes =
      [(regLoop resolver ⟨[], [], [], []⟩ intents).servers,
       (regLoop resolver ⟨[], [], [], []⟩ intents).clients] ∧
    (∀ i j (hi : i < (phasedDispatchTrace resolver intents).length)
        (hj : j < (phasedDispatchTrace resolver intents).length),
      ((phasedDispatchTrace resolver intents).get ⟨i, hi⟩).role =
          DispatchRole.server →
      ((phasedDispatchTrace resolver intents).get ⟨j, hj⟩).role =
          DispatchRole.client →
      i < j) ∧
    (register_traffic resolver false intents).passes =
      [mergeMaps (regLoop resolver ⟨[], [], [], []⟩ intents).servers
        (regLoop resolver ⟨[], [], [], []⟩ intents).clients] ∧
    (∀ host,
      lookupRules
        (mergeMaps (regLoop resolver ⟨[], [], [], []⟩ intents).servers
          (regLoop resolver ⟨[], [], [], []⟩ intents).clients) host =
      lookupRules (regLoop resolver ⟨[], [], [], []⟩ intents).servers host ++
        lookupRules (regLoop resolver ⟨[], [], [], []⟩ intents).clients host) := by
  refine ⟨rfl, ?_, rfl, ?_⟩
  · intro i j hi hj hsrv hcli
    have hs : ∀ e ∈ passEvents DispatchRole.server
        (regLoop resolver ⟨[], [], [], []⟩ intents).servers,
        e.role = DispatchRole.server := fun e he => role_of_mem_passEvents he
    have hc : ∀ e ∈ passEvents DispatchRole.client
        (regLoop resolver ⟨[], [], [], []⟩ intents).clients,
        e.role = DispatchRole.client := fun e he => role_of_mem_passEvents he
    have h1 := lt_length_left_of_role_server hi hs hc hsrv
    have h2 := length_le_of_role_client hj hs hc hcli
    exact lt_of_lt_of_le h1 h2
  · intro host
    exact lookupRules_mergeMaps _ _
      (regLoop_clients_keys_nodup resolver intents ⟨[], [], [], []⟩
        (by simp)) host

theorem register_traffic_ordering_witness :
    (register_traffic
        (fun ip => if ip = "1.1.1.1" then some "h1"
          else if ip = "1.1.1.2" then some "h2" else none) true
        [⟨"rq", "rl", "1.1.1.1", "1.1.1.2", 80, "TCP", true⟩]).passes =
      [[("h2", [⟨"rq", "rl", "1.1.1.1", "1.1.1.2", 80, "TCP", true⟩])],
       [("h1", [⟨"rq", "rl", "1.1.1.1", "1.1.1.2", 80, "TCP", true⟩])]] ∧
    (1 : ℕ) < 2 :=
  ⟨((register_traffic_ordering
      (fun ip => if ip = "1.1.1.1" then some "h1"
        else if ip = "1.1.1.2" then some "h2" else none)
      [⟨"rq", "rl", "1.1.1.1", "1.1.1.2", 80, "TCP", true⟩]).1).trans
      (by decide),
   (register_traffic_ordering
      (fun ip => if ip = "1.1.1.1" then some "h1"
        else if ip = "1.1.1.2" then some "h2" else none)
      [⟨"rq", "rl", "1.1.1.1", "1.1.1.2", 80, "TCP", true⟩]).2.1 1 2
      (by decide) (by decide) (by decide) (by decide)⟩

/-! ## C5: mesh ping registers all ordered pairs under one reqid -/

/-- C5: for a list of `n` distinct hosts, all resolvable, `run_mesh_ping`
registers exactly `n * (n - 1)` rules — one per ordered pair of distinct
hosts — and every registered rule carries the one freshly generated
`reqid`, which the call returns. -/
theorem run_mesh_ping_rules (resolver : Resolver) (serversFirst : Bool)
    (hosts : List String) (dst_port : Nat) (protocol : String)
    (reqid : String) (ruleids : Nat → String)
    (_hnd : hosts.Nodup)
    (hres : ∀ h ∈ hosts, (resolver h).isSome = true) :
    (run_mesh_ping resolver serversFirst hosts dst_port protocol reqid
        ruleids).2.trules.length = hosts.length * (hosts.length - 1) ∧
    (∀ t ∈ (run_mesh_ping resolver serversFirst hosts dst_port protocol
        reqid ruleids).2.trules, t.rule.reqid = reqid) ∧
    (run_mesh_ping resolver serversFirst hosts dst_port protocol reqid
        ruleids).1 = reqid := by
  set intents := (perm2 hosts).enum.map (fun p =>
    ({ reqid := reqid, ruleid := ruleids p.1, src := p.2.1, dst := p.2.2,
       port := dst_port, protocol := protocol, connected := true } : Intent))
    with hint
  have hmesh : (run_mesh_ping resolver serversFirst hosts dst_port protocol
      reqid ruleids).2 = register_traffic resolver serversFirst intents := rfl
  have htr : (register_traffic resolver serversFirst intents).trules =
      (intents.filter fun r =>
        (resolver r.src).isSome && (resolver r.dst).isSome).map
        create_traffic_rule := by
    show (regLoop resolver ⟨[], [], [], []⟩ intents).trules = _
    rw [regLoop_trules]
    simp
  have hall : ∀ r ∈ intents,
      ((resolver r.src).isSome && (resolver r.dst).isSome) = true := by
    intro r hr
    rw [hint] at hr
    obtain ⟨⟨i, a, b⟩, hp, rfl⟩ := List.mem_map.mp hr
    have hab : (a, b) ∈ perm2 hosts := snd_mem_of_mem_enum hp
    have hmem := perm2_mem hab
    simp [hres a hmem.1, hres b hmem.2]
  have hfil : intents.filter (fun r =>
      (resolver r.src).isSome && (resolver r.dst).isSome) = intents :=
    List.filter_eq_self.mpr hall
  refine ⟨?_, ?_, rfl⟩
  · rw [hmesh, htr, hfil, List.length_map, hint, List.length_map,
      List.enum_length, perm2_length]
  · intro t ht
    rw [hmesh, htr, hfil, hint] at ht
    obtain ⟨r, hr, rfl⟩ := List.mem_map.mp ht
    obtain ⟨⟨i, a, b⟩, hp, rfl⟩ := List.mem_map.mp hr
    rfl

theorem run_mesh_ping_rules_witness :
    (run_mesh_ping (fun ip => some ip) true ["a", "b", "c"] 5000 "TCP"
        "req-7" (fun n => toString n)).2.trules.length = 3 * (3 - 1) ∧
    (run_mesh_ping (fun ip => some ip) true ["a", "b", "c"] 5000 "TCP"
        "req-7" (fun n => toString n)).1 = "req-7" :=
  ⟨(run_mesh_ping_rules (fun ip => some ip) true ["a", "b", "c"] 5000 "TCP"
      "req-7" (fun n => toString n) (by decide) (by decide)).1,
   (run_mesh_ping_rules (fun ip => some ip) true ["a", "b", "c"] 5000 "TCP"
      "req-7" (fun n => toString n) (by decide) (by decide)).2.2⟩

/-! ## C6: unresolvable rules are skipped, the rest registered -/

/-- C6: during `register_traffic`, a rule whose source or destination IP
resolves to no host is skipped with a logged error — it appears in no
dispatch pass and is not persisted — while every resolvable rule of the
same batch is still dispatched and persisted. -/
theorem register_traffic_skips_unresolved (resolver : Resolver)
    (serversFirst : Bool) (intents : List Intent) :
    (∀ r ∈ intents, (resolver r.src = none ∨ resolver r.dst = none) →
      create_traffic_rule r ∉
        (register_traffic resolver serversFirst intents).trules ∧
      (∀ p ∈ (register_traffic resolver serversFirst intents).passes,
        ∀ hr ∈ p, r ∉ hr.2) ∧
      (resolver r.src = none →
        r.src ∈ (register_traffic resolver serversFirst intents).skip_logs) ∧
      (∀ sh, resolver r.src = some sh → resolver r.dst = none →
        r.dst ∈ (register_traffic resolver serversFirst intents).skip_logs)) ∧
    (∀ r ∈ intents, (resolver r.src).isSome = true →
      (resolver r.dst).isSome = true →
      create_traffic_rule r ∈
        (register_traffic resolver serversFirst intents).trules ∧
      ∃ p ∈ (register_traffic resolver serversFirst intents).passes,
        ∃ hr ∈ p, r ∈ hr.2) := by
  have htr : (register_traffic resolver serversFirst intents).trules =
      (intents.filter fun r =>
        (resolver r.src).isSome && (resolver r.dst).isSome).map
        create_traffic_rule := by
    show (regLoop resolver ⟨[], [], [], []⟩ intents).trules = _
    rw [regLoop_trules]
    simp
  have hsl : (register_traffic resolver serversFirst intents).skip_logs =
      intents.filterMap (skipLogOf resolver) := by
    show (regLoop resolver ⟨[], [], [], []⟩ intents).skip_logs = _
    rw [regLoop_skip_logs]
    simp
  constructor
  · intro r hrm hbad
    have hfalse : ¬((resolver r.src).isSome = true ∧
        (resolver r.dst).isSome = true) := by
      rcases hbad with h | h <;> simp [h]
    refine ⟨?_, ?_, ?_, ?_⟩
    · rw [htr]
      intro hmem
      obtain ⟨r2, hr2, he⟩ := List.mem_map.mp hmem
      have he2 : r2 = r := by
        simpa [create_traffic_rule, TRule.mk.injEq] using he
      subst he2
      have hc := (List.mem_filter.mp hr2).2
      rcases hbad with h | h <;> simp [h] at hc
    · intro p hp hr0 hhr hmem
      cases serversFirst with
      | true =>
          have hp' : p = (regLoop resolver ⟨[], [], [], []⟩ intents).servers ∨
              p = (regLoop resolver ⟨[], [], [], []⟩ intents).clients := by
            simpa [register_traffic] using hp
          rcases hp' with hp' | hp' <;> subst hp'
          · rcases regLoop_servers_values resolver intents _ hhr hmem with
              ⟨a, ha, _⟩ | ⟨_, h1, h2⟩
            · cases ha
            · exact hfalse ⟨h1, h2⟩
          · rcases regLoop_clients_values resolver intents _ hhr hmem with
              ⟨a, ha, _⟩ | ⟨_, h1, h2⟩
            · cases ha
            · exact hfalse ⟨h1, h2⟩
      | false =>
          have hp' : p = mergeMaps
              (regLoop resolver ⟨[], [], [], []⟩ intents).servers
              (regLoop resolver ⟨[], [], [], []⟩ intents).clients := by
            simpa [register_traffic] using hp
          subst hp'
          rcases mem_values_mergeMaps hhr hmem with ⟨a, ha, hx⟩ | ⟨a, ha, hx⟩
          · rcases regLoop_servers_values resolver intents _ ha hx with
              ⟨a0, ha0, _⟩ | ⟨_, h1, h2⟩
            · cases ha0
            · exact hfalse ⟨h1, h2⟩
          · rcases regLoop_clients_values resolver intents _ ha hx with
              ⟨a0, ha0, _⟩ | ⟨_, h1, h2⟩
            · cases ha0
            · exact hfalse ⟨h1, h2⟩
    · intro hsrc
      rw [hsl]
      exact List.mem_filterMap.mpr ⟨r, hrm, by simp [skipLogOf, hsrc]⟩
    · intro sh hsh hdst
      rw [hsl]
      exact List.mem_filterMap.mpr ⟨r, hrm, by simp [skipLogOf, hsh, hdst]⟩
  · intro r hrm hs hd
    constructor
    · rw [htr]
      exact List.mem_map.mpr
        ⟨r, List.mem_filter.mpr ⟨hrm, by simp [hs, hd]⟩, rfl⟩
    · cases serversFirst with
      | true =>
          refine ⟨(regLoop resolver ⟨[], [], [], []⟩ intents).servers, ?_, ?_⟩
          · simp [register_traffic]
          · exact regLoop_servers_exists resolver intents _ hrm hs hd
      | false =>
          refine ⟨mergeMaps
              (regLoop resolver ⟨[], [], [], []⟩ intents).servers
              (regLoop resolver ⟨[], [], [], []⟩ intents).clients, ?_, ?_⟩
          · simp [register_traffic]
          · exact exists_value_mergeMaps_mono
              (regLoop_servers_exists resolver intents _ hrm hs hd) _

theorem register_traffic_skips_unresolved_witness :
    create_traffic_rule ⟨"rq", "r2", "9.9.9.9", "1.1.1.1", 80, "TCP", true⟩ ∉
      (register_traffic (fun ip => if ip = "1.1.1.1" then some "h1" else none)
        true
        [⟨"rq", "r1", "1.1.1.1", "1.1.1.1", 80, "TCP", true⟩,
         ⟨"rq", "r2", "9.9.9.9", "1.1.1.1", 80, "TCP", true⟩]).trules ∧
    "9.9.9.9" ∈
      (register_traffic (fun ip => if ip = "1.1.1.1" then some "h1" else none)
        true
        [⟨"rq", "r1", "1.1.1.1", "1.1.1.1", 80, "TCP", true⟩,
         ⟨"rq", "r2", "9.9.9.9", "1.1.1.1", 80, "TCP", true⟩]).skip_logs ∧
    create_traffic_rule ⟨"rq", "r1", "1.1.1.1", "1.1.1.1", 80, "TCP", true⟩ ∈
      (register_traffic (fun ip => if ip = "1.1.1.1" then some "h1" else none)
        true
        [⟨"rq", "r1", "1.1.1.1", "1.1.1.1", 80, "TCP", true⟩,
         ⟨"rq", "r2", "9.9.9.9", "1.1.1.1", 80, "TCP", true⟩]).trules :=
  ⟨((register_traffic_skips_unresolved
      (fun ip => if ip = "1.1.1.1" then some "h1" else none) true
      [⟨"rq", "r1", "1.1.1.1", "1.1.1.1", 80, "TCP", true⟩,
       ⟨"rq", "r2", "9.9.9.9", "1.1.1.1", 80, "TCP", true⟩]).1
      ⟨"rq", "r2", "9.9.9.9", "1.1.1.1", 80, "TCP", true⟩ (by decide)
      (Or.inl (by decide))).1,
   ((register_traffic_skips_unresolved
      (fun ip => if ip = "1.1.1.1" then some "h1" else none) true
      [⟨"rq", "r1", "1.1.1.1", "1.1.1.1", 80, "TCP", true⟩,
       ⟨"rq", "r2", "9.9.9.9", "1.1.1.1", 80, "TCP", true⟩]).1
      ⟨"rq", "r2", "9.9.9.9", "1.1.1.1", 80, "TCP", true⟩ (by decide)
      (Or.inl (by decide))).2.2.1 (by decide),
   ((register_traffic_skips_unresolved
      (fun ip => if ip = "1.1.1.1" then some "h1" else none) true
      [⟨"rq", "r1", "1.1.1.1", "1.1.1.1", 80, "TCP", true⟩,
       ⟨"rq", "r2", "9.9.9.9", "1.1.1.1", 80, "TCP", true⟩]).2
      ⟨"rq", "r1", "1.1.1.1", "1.1.1.1", 80, "TCP", true⟩ (by decide)
      (by decide) (by decide)).1⟩

end Lydian
